import Mathlib

/-!
Verification development for the Creator_Agent theme-generation pipeline.

The definitions below are a shallow embedding, translated from the Python
sources:
- `src/skills/model_runner.py` (`LLMModelRunner`): inference dispatch,
  JSON extraction/normalization, TIPO enhancement, llama.cpp model cache;
- `src/skills/tipo_tagger.py` (`TipoTagger`): enhancer output parsing;
- `src/agents/theme_agent.py` (`_build_prompt_tags_from_keywords`):
  keyword-to-category dispatch.

Python strings are modelled as Lean `String`/`List Char` (ASCII-faithful:
`str.lower`/`str.strip` are embedded for the ASCII range, which covers every
keyword set and token the code manipulates).  `json.loads` is embedded as a
fuel-based recursive-descent parser producing the same error *kinds* as
CPython's decoder (the code inspects the message `"Expecting value"`, so the
kind of the first error is semantically load-bearing).  Machine floats are
not modelled: non-integer JSON number literals are kept as their source text
(no claim touches them).
-/

namespace CreatorAgent

/-! ### ASCII models of Python string primitives -/

/-- Model of `str.lower` for a single ASCII character. -/
def pyLowerChar (c : Char) : Char :=
  if 'A' ≤ c ∧ c ≤ 'Z' then Char.ofNat (c.toNat + 32) else c

/-- Model of `str.lower` (ASCII range). -/
def pyLower (s : String) : String := ⟨s.data.map pyLowerChar⟩

/-- Whitespace stripped by Python `str.strip()` (ASCII subset). -/
def isPySpace (c : Char) : Bool :=
  c = ' ' ∨ c = '\t' ∨ c = '\n' ∨ c = '\r' ∨ c = Char.ofNat 11 ∨ c = Char.ofNat 12

/-- Strip characters satisfying `p` from both ends (Python `str.strip(chars)`). -/
def stripChars (p : Char → Bool) (s : String) : String :=
  ⟨((s.data.dropWhile p).reverse.dropWhile p).reverse⟩

/-- Model of `str.strip()` with no argument. -/
def pyStrip (s : String) : String := stripChars isPySpace s

/-- Split a character list at every comma, keeping empty pieces
(Python `str.split(",")`). -/
def splitCommaAux : List Char → List (List Char)
  | [] => [[]]
  | c :: t =>
    if c = ',' then [] :: splitCommaAux t
    else
      match splitCommaAux t with
      | [] => [[c]]
      | h :: r => (c :: h) :: r

/-- Model of `s.split(",")`. -/
def splitComma (s : String) : List String := (splitCommaAux s.data).map (⟨·⟩)

/-- Model of `", ".join` style joining. -/
def joinSep (sep : String) : List String → String
  | [] => ""
  | [x] => x
  | x :: y :: t => x ++ sep ++ joinSep sep (y :: t)

/-- One piece of `[t.strip() for t in s.split(",") if t.strip()]`: the
stripped piece when truthy. -/
def pieceToTag (t : String) : Option String :=
  let u := pyStrip t
  if u = "" then none else some u

/-- Model of `[t.strip() for t in s.split(",") if t.strip()]`. -/
def stripSplit (s : String) : List String :=
  (splitComma s).filterMap pieceToTag

/-- Whether `pat` occurs as a contiguous substring of `hay`
(Python `pat in hay`). -/
def hasSubAux (pat : List Char) : List Char → Bool
  | [] => pat.isEmpty
  | c :: t => pat.isPrefixOf (c :: t) || hasSubAux pat t

/-- Model of the Python substring test `pat in hay`. -/
def containsSub (hay pat : String) : Bool := hasSubAux pat.data hay.data

/-- Model of `s.endswith(t)`. -/
def endsWithStr (s t : String) : Bool := t.data.reverse.isPrefixOf s.data.reverse

/-- Replace every non-overlapping occurrence of `pat` (left to right) by `rep`
(Python `str.replace` for non-empty patterns); `fuel` bounds the recursion. -/
def replaceAllAux (pat rep : List Char) : Nat → List Char → List Char
  | 0, s => s
  | fuel + 1, s =>
    if pat ≠ [] ∧ pat.isPrefixOf s then
      rep ++ replaceAllAux pat rep fuel (s.drop pat.length)
    else
      match s with
      | [] => []
      | c :: t => c :: replaceAllAux pat rep fuel t

/-- Model of `s.replace(pat, rep)` for non-empty `pat`. -/
def replaceAll (s pat rep : String) : String :=
  ⟨replaceAllAux pat.data rep.data s.data.length s.data⟩

/-- First index of character `c`, if any. -/
def firstIdxOf (c : Char) : List Char → Option Nat
  | [] => none
  | x :: t => if x = c then some 0 else (firstIdxOf c t).map (· + 1)

/-- Last index of character `c`, if any. -/
def lastIdxOf (c : Char) (l : List Char) : Option Nat :=
  (firstIdxOf c l.reverse).map (fun k => l.length - 1 - k)

/-- Boolean string-list membership (Python `in` on a set of strings,
modelled over the insertion list). -/
def hasStr : List String → String → Bool
  | [], _ => false
  | x :: t, y => x == y || hasStr t y

/-- First-occurrence deduplication relative to an already-seen list
(the `seen`-set loop idiom used throughout the Python code). -/
def dedupFirstAux (seen : List String) : List String → List String
  | [] => []
  | x :: t =>
    if hasStr seen x then dedupFirstAux seen t
    else x :: dedupFirstAux (x :: seen) t

/-- First-occurrence deduplication of a string list. -/
def dedupFirst (l : List String) : List String := dedupFirstAux [] l

/-! ### Embedding of Python `json.loads`

The parser mirrors CPython's `json.decoder` / `json.scanner`: the same
scan order (string, object, array, `null`/`true`/`false`, number regex,
`NaN`/`Infinity`/`-Infinity`), the same whitespace handling, and the same
error *kinds* — `model_runner._parse_json_result` branches on whether the
decoder error message contains `"Expecting value"`, so the kind matters.
Recursion is bounded by a fuel argument that is ample for every input
(each recursive call either consumes input or moves to a subterm). -/

/-- The error kinds raised by CPython's JSON decoder. -/
inductive JErr where
  | expectingValue        -- "Expecting value"
  | expectingComma        -- "Expecting ',' delimiter"
  | expectingColon        -- "Expecting ':' delimiter"
  | expectingPropName     -- "Expecting property name enclosed in double quotes"
  | unterminatedString    -- "Unterminated string starting at"
  | invalidControl        -- "Invalid control character"
  | invalidEscape         -- "Invalid \\escape" / "Invalid \\uXXXX escape"
  | extraData             -- "Extra data"
  | fuelExhausted         -- never reached on inputs considered here
deriving DecidableEq, Repr

/-- A parsed JSON value as produced by `json.loads`.  Objects keep their
members in source order (lookup takes the last binding, like a Python dict
built by repeated insertion).  Integer literals become `intNum`; other
numeric literals (`floats`, `NaN`, `Infinity`) keep their source text. -/
inductive JVal where
  | null
  | boolean (b : Bool)
  | intNum (n : Int)
  | floatNum (lit : String)
  | str (s : String)
  | arr (xs : List JVal)
  | obj (kvs : List (String × JVal))

/-- Python dict lookup for an object built from `kvs` in order: the last
binding of a duplicated key wins. -/
def objGet : List (String × JVal) → String → Option JVal
  | [], _ => none
  | (k, v) :: t, key =>
    match objGet t key with
    | some r => some r
    | none => if k = key then some v else none

/-- JSON whitespace (the only characters `json.decoder` skips). -/
def isJsonWs (c : Char) : Bool := c = ' ' ∨ c = '\t' ∨ c = '\n' ∨ c = '\r'

/-- Skip JSON whitespace. -/
def skipWs (l : List Char) : List Char := l.dropWhile isJsonWs

/-- Hexadecimal digit value. -/
def hexVal (c : Char) : Option Nat :=
  if '0' ≤ c ∧ c ≤ '9' then some (c.toNat - '0'.toNat)
  else if 'a' ≤ c ∧ c ≤ 'f' then some (c.toNat - 'a'.toNat + 10)
  else if 'A' ≤ c ∧ c ≤ 'F' then some (c.toNat - 'A'.toNat + 10)
  else none

/-- Decode a code point into a `Char`; code points that are not Lean scalar
values (lone surrogates, which Python tolerates) map to U+FFFD. -/
def codePointChar (n : Nat) : Char :=
  if n < 0xd800 ∨ (0xe000 ≤ n ∧ n < 0x110000) then Char.ofNat n
  else Char.ofNat 0xfffd

/-- Read the simple escapes accepted after a backslash in a JSON string. -/
def jsonEscape (c : Char) : Option Char :=
  if c = '"' then some '"'
  else if c = '\\' then some '\\'
  else if c = '/' then some '/'
  else if c = 'b' then some (Char.ofNat 8)
  else if c = 'f' then some (Char.ofNat 12)
  else if c = 'n' then some '\n'
  else if c = 'r' then some '\r'
  else if c = 't' then some '\t'
  else none

/-- Parse the body of a JSON string after the opening quote, with CPython's
`scanstring` strict-mode errors. -/
def scanString (acc : List Char) : List Char → Except JErr (String × List Char)
  | [] => .error .unterminatedString
  | '"' :: rest => .ok (⟨acc.reverse⟩, rest)
  | '\\' :: rest =>
    match rest with
    | [] => .error .unterminatedString
    | 'u' :: a :: b :: c :: d :: r =>
      match hexVal a, hexVal b, hexVal c, hexVal d with
      | some va, some vb, some vc, some vd =>
        scanString (codePointChar (((va * 16 + vb) * 16 + vc) * 16 + vd) :: acc) r
      | _, _, _, _ => .error .invalidEscape
    | e :: r =>
      match jsonEscape e with
      | some ch => scanString (ch :: acc) r
      | none => .error .invalidEscape
  | c :: rest =>
    if c.toNat < 0x20 then .error .invalidControl
    else scanString (c :: acc) rest

/-- Digit test. -/
def isDigitCh (c : Char) : Bool := '0' ≤ c ∧ c ≤ '9'

/-- Longest digit run at the front. -/
def takeDigits : List Char → List Char × List Char
  | [] => ([], [])
  | c :: t =>
    if isDigitCh c then
      let (ds, r) := takeDigits t
      (c :: ds, r)
    else ([], c :: t)

/-- Digits to a natural number. -/
def digitsToNat (ds : List Char) : Nat :=
  ds.foldl (fun acc c => acc * 10 + (c.toNat - '0'.toNat)) 0

/-- Match CPython's `NUMBER_RE` at the head of the input:
`(-?(?:0|[1-9]\d*))(\.\d+)?([eE][-+]?\d+)?`.  Returns the value and the
rest, or `none` when the regex does not match here. -/
def matchNumber (l : List Char) : Option (JVal × List Char) :=
  let (neg, l1) :=
    match l with
    | '-' :: r => (true, r)
    | _ => (false, l)
  match l1 with
  | [] => none
  | c :: t =>
    if ¬ isDigitCh c then none
    else
      let (intDs, l2) :=
        if c = '0' then ([c], t)
        else
          let (ds, r) := takeDigits t
          (c :: ds, r)
      let (fracDs, l3) :=
        match l2 with
        | '.' :: r =>
          let (ds, r2) := takeDigits r
          if ds = [] then ([], l2) else (ds, r2)
        | _ => ([], l2)
      let (expDs, l4) :=
        match l3 with
        | 'e' :: r | 'E' :: r =>
          let (sgn, r1) :=
            match r with
            | '+' :: r2 => (['+'], r2)
            | '-' :: r2 => (['-'], r2)
            | _ => ([], r)
          let (ds, r2) := takeDigits r1
          if ds = [] then ([], l3)
          else
            match l3 with
            | e0 :: _ => (e0 :: (sgn ++ ds), r2)
            | [] => ([], l3)
        | _ => ([], l3)
      if fracDs = [] ∧ expDs = [] then
        let n : Int := Int.ofNat (digitsToNat intDs)
        some (.intNum (if neg then -n else n), l4)
      else
        let lit := (if neg then ['-'] else []) ++ intDs ++
          (if fracDs = [] then [] else '.' :: fracDs) ++ expDs
        some (.floatNum ⟨lit⟩, l4)

/-- Opening and closing braces as characters. -/
def lbrace : Char := Char.ofNat 123

/-- Closing brace character. -/
def rbrace : Char := Char.ofNat 125

mutual

/-- CPython `_scan_once`: dispatch on the first character.  The caller has
already positioned the input (no leading-whitespace skip here). -/
def scanOnce (fuel : Nat) (l : List Char) : Except JErr (JVal × List Char) :=
  match fuel with
  | 0 => .error .fuelExhausted
  | fuel + 1 =>
    match l with
    | [] => .error .expectingValue
    | c :: t =>
      if c = '"' then
        match scanString [] t with
        | .ok (s, r) => .ok (.str s, r)
        | .error e => .error e
      else if c = lbrace then
        parseObject fuel t
      else if c = '[' then
        parseArray fuel t
      else if ['n', 'u', 'l', 'l'].isPrefixOf l then
        .ok (.null, l.drop 4)
      else if ['t', 'r', 'u', 'e'].isPrefixOf l then
        .ok (.boolean true, l.drop 4)
      else if ['f', 'a', 'l', 's', 'e'].isPrefixOf l then
        .ok (.boolean false, l.drop 5)
      else
        match matchNumber l with
        | some (v, r) => .ok (v, r)
        | none =>
          if ['N', 'a', 'N'].isPrefixOf l then
            .ok (.floatNum "NaN", l.drop 3)
          else if ['I', 'n', 'f', 'i', 'n', 'i', 't', 'y'].isPrefixOf l then
            .ok (.floatNum "Infinity", l.drop 8)
          else if ['-', 'I', 'n', 'f', 'i', 'n', 'i', 't', 'y'].isPrefixOf l then
            .ok (.floatNum "-Infinity", l.drop 9)
          else .error .expectingValue

/-- CPython `JSONArray`: called just after the opening bracket. -/
def parseArray (fuel : Nat) (l : List Char) : Except JErr (JVal × List Char) :=
  match fuel with
  | 0 => .error .fuelExhausted
  | fuel + 1 =>
    let l1 := skipWs l
    match l1 with
    | ']' :: r => .ok (.arr [], r)
    | _ => parseElems fuel [] l1

/-- The element loop of `JSONArray`: scan a value, then expect `]` or `,`. -/
def parseElems (fuel : Nat) (acc : List JVal) (l : List Char) :
    Except JErr (JVal × List Char) :=
  match fuel with
  | 0 => .error .fuelExhausted
  | fuel + 1 =>
    match scanOnce fuel l with
    | .error e => .error e
    | .ok (v, r) =>
      let r1 := skipWs r
      match r1 with
      | ']' :: r2 => .ok (.arr (acc ++ [v]), r2)
      | ',' :: r2 => parseElems fuel (acc ++ [v]) (skipWs r2)
      | _ => .error .expectingComma

/-- CPython `JSONObject`: called just after the opening brace. -/
def parseObject (fuel : Nat) (l : List Char) : Except JErr (JVal × List Char) :=
  match fuel with
  | 0 => .error .fuelExhausted
  | fuel + 1 =>
    let l1 := skipWs l
    match l1 with
    | [] => .error .expectingPropName
    | c :: t =>
      if c = rbrace then .ok (.obj [], t)
      else if c = '"' then parseMembers fuel [] (c :: t)
      else .error .expectingPropName

/-- The member loop of `JSONObject`: key, colon, value, then `}` or `,`
followed by the next quoted key. -/
def parseMembers (fuel : Nat) (acc : List (String × JVal)) (l : List Char) :
    Except JErr (JVal × List Char) :=
  match fuel with
  | 0 => .error .fuelExhausted
  | fuel + 1 =>
    match l with
    | '"' :: t =>
      match scanString [] t with
      | .error e => .error e
      | .ok (key, r) =>
        match skipWs r with
        | ':' :: r2 =>
          match scanOnce fuel (skipWs r2) with
          | .error e => .error e
          | .ok (v, r3) =>
            let r4 := skipWs r3
            match r4 with
            | [] => .error .expectingComma
            | c :: r5 =>
              if c = rbrace then .ok (.obj (acc ++ [(key, v)]), r5)
              else if c = ',' then
                match skipWs r5 with
                | '"' :: r6 => parseMembers fuel (acc ++ [(key, v)]) ('"' :: r6)
                | _ => .error .expectingPropName
              else .error .expectingComma
        | _ => .error .expectingColon
    | _ => .error .expectingPropName

end

/-- CPython `JSONDecoder.decode`: skip surrounding whitespace, scan one
value, and reject trailing garbage as "Extra data". -/
def pyLoads (s : String) : Except JErr JVal :=
  let cs := skipWs s.data
  match scanOnce (4 * cs.length + 16) cs with
  | .error e => .error e
  | .ok (v, rest) =>
    if skipWs rest = [] then .ok v else .error .extraData

/-! ### Model of Python `str()` on decoded JSON values -/

/-- Escape a character for Python `repr` of a string (good-faith model;
no claim depends on container `repr`). -/
def pyReprCharEsc (c : Char) : List Char :=
  if c = '\\' then ['\\', '\\']
  else if c = Char.ofNat 39 then ['\\', Char.ofNat 39]
  else [c]

/-- Python `repr` of a string, in the common single-quote form. -/
def pyStrRepr (s : String) : String :=
  ⟨Char.ofNat 39 :: (s.data.flatMap pyReprCharEsc) ++ [Char.ofNat 39]⟩

mutual

/-- Python `repr` of a decoded JSON value. -/
def pyRepr : JVal → String
  | .null => "None"
  | .boolean true => "True"
  | .boolean false => "False"
  | .intNum n => toString n
  | .floatNum lit => lit
  | .str s => pyStrRepr s
  | .arr xs => "[" ++ joinSep ", " (pyReprList xs) ++ "]"
  | .obj kvs => "\x7b" ++ joinSep ", " (pyReprMembers kvs) ++ "\x7d"

/-- `repr` of each array element. -/
def pyReprList : List JVal → List String
  | [] => []
  | v :: t => pyRepr v :: pyReprList t

/-- `repr` of each object member. -/
def pyReprMembers : List (String × JVal) → List String
  | [] => []
  | (k, v) :: t => (pyStrRepr k ++ ": " ++ pyRepr v) :: pyReprMembers t

end

/-- Python `str()` of a decoded JSON value: the identity on strings,
otherwise `repr`. -/
def pyStr : JVal → String
  | .str s => s
  | v => pyRepr v

/-! ### Embedding of `LLMModelRunner` extraction parsing
(`model_runner.py`, `_parse_json_result` / `_strip_code_fences` /
`_ensure_str_list`) -/

/-- A normalized theme draft, as built by `_parse_json_result`. -/
structure Theme where
  title : String
  short_concept : String
  keywords : List String
  mood : List String
deriving DecidableEq, Repr

/-- The failures `_parse_json_result` can surface: the `RuntimeError`s it
raises itself (`parseFail` carries the truncated raw text of the
f-string diagnostic, `notAList` is "Extracted JSON is not a list."), and
the uncaught `TypeError` reached when a non-sliceable `themes` value is
sliced. -/
inductive ParseFailure where
  | parseFail (truncatedRaw : String)
  | notAList
  | notSliceable
deriving DecidableEq, Repr

/-- Embedding of `_strip_code_fences`: strip whitespace; when the text
starts with a triple backtick, strip all backticks from both ends and drop
the first line; strip again. -/
def stripCodeFences (s : String) : String :=
  let t := pyStrip s
  let t2 :=
    if "```".data.isPrefixOf t.data then
      let u := stripChars (fun c => c = Char.ofNat 96) t
      match firstIdxOf '\n' u.data with
      | some i => ⟨u.data.drop (i + 1)⟩
      | none => u
    else t
  pyStrip t2

/-- Embedding of `re.search(r'\[.*\]', cleaned, re.DOTALL)` followed by
`match.group(0)`: with a greedy dot-all regex the match, when it exists,
runs from the first `[` that precedes the last `]` up to that last `]`;
otherwise the text is left unchanged. -/
def extractArraySlice (s : String) : String :=
  match firstIdxOf '[' s.data, lastIdxOf ']' s.data with
  | some i, some j => if i < j then ⟨(s.data.drop i).take (j - i + 1)⟩ else s
  | _, _ => s

/-- Embedding of `cleaned.rsplit("}", 1)[0] + "}]"`: drop from the last
`}` (inclusive) onward when one exists, then append `}]`. -/
def repairText (s : String) : String :=
  let r := s.data.reverse.dropWhile (fun c => c ≠ rbrace)
  let stem :=
    match r with
    | [] => s.data
    | _ :: t => t.reverse
  ⟨stem ++ [rbrace, ']']⟩

/-- Embedding of `json_text[:200]`, the truncation used in the ParseError
diagnostic. -/
def truncate200 (s : String) : String := ⟨s.data.take 200⟩

/-- Embedding of `_ensure_str_list`. -/
def ensureStrList : JVal → List String
  | .arr xs => xs.map pyStr
  | .str s => [s]
  | v => [pyStr v]

/-- Per-object normalization in `_parse_json_result`: non-dict items are
skipped; field defaults apply only when the key is absent. -/
def normItem : JVal → Option Theme
  | .obj kvs =>
    some
      { title := pyStr ((objGet kvs "title").getD (.str "Untitled"))
        short_concept := pyStr ((objGet kvs "short_concept").getD (.str ""))
        keywords := ensureStrList ((objGet kvs "keywords").getD (.arr []))
        mood := ensureStrList ((objGet kvs "mood").getD (.arr [])) }
  | _ => none

/-- The normalization loop over `data[: max(count, 1)]`. -/
def normalizeSlice (xs : List JVal) (count : Nat) : List Theme :=
  (xs.take (max count 1)).filterMap normItem

/-- Slicing and iterating the value taken from a `themes` key: a list is
normalized, a string is sliced into characters (none of which is a dict,
so every item is skipped), anything else raises an uncaught `TypeError`.  -/
def sliceThemes (v : JVal) (count : Nat) : Except ParseFailure (List Theme) :=
  match v with
  | .arr xs => .ok (normalizeSlice xs count)
  | .str _ => .ok []
  | _ => .error .notSliceable

/-- The post-parse phase of `_parse_json_result`: a list is normalized
directly, a dict is unwrapped through its `themes` key, and everything
else raises "Extracted JSON is not a list.". -/
def afterParse (d : JVal) (count : Nat) : Except ParseFailure (List Theme) :=
  match d with
  | .arr xs => .ok (normalizeSlice xs count)
  | .obj kvs =>
    match objGet kvs "themes" with
    | some v => sliceThemes v count
    | none => .error .notAList
  | _ => .error .notAList

/-- Embedding of `_parse_json_result`: fence stripping, bracket
extraction, `json.loads`, the conditional single repair (only when the
decoder error is an "Expecting value" and the extracted text does not
already end in `]`), and normalization. -/
def parseJsonResult (jsonText : String) (count : Nat) :
    Except ParseFailure (List Theme) :=
  let cleaned := extractArraySlice (stripCodeFences jsonText)
  match pyLoads cleaned with
  | .ok d => afterParse d count
  | .error e =>
    if e = .expectingValue ∧ endsWithStr cleaned "]" = false then
      match pyLoads (repairText cleaned) with
      | .ok d => afterParse d count
      | .error _ => .error (.parseFail (truncate200 jsonText))
    else .error (.parseFail (truncate200 jsonText))

/-! ### Embedding of `TipoTagger.parse_output` (`tipo_tagger.py`) -/

/-- `TipoTagger.BAN_TAGS`. -/
def banTags : List String :=
  ["background", "name", "text", "joke", "costume",
   "alternative", "speech", "stickers", "hat",
   "signature", "watermark", "username", "artist name"]

/-- `TipoTagger.SPECIAL_TOKENS`. -/
def specialTokens : List String :=
  ["<|special|>", "<|characters|>", "<|copyrights|>",
   "<|artist|>", "<|general|>", "<|generated|>",
   "<|quality|>", "<|meta|>", "<|rating|>", "<|extended|>"]

/-- Embedding of `re.sub(r"\\([()\[\]])", r"\1", text)`: a backslash
immediately followed by a bracket character is replaced by that character,
scanning left to right. -/
def unescBr : List Char → List Char
  | [] => []
  | '\\' :: c :: t =>
    if c = '(' ∨ c = ')' ∨ c = '[' ∨ c = ']' then c :: unescBr t
    else '\\' :: unescBr (c :: t)
  | c :: t => c :: unescBr t

/-- Embedding of `TipoTagger.parse_output`: remove special tokens,
unescape brackets, split on commas, strip/lowercase (dropping blank
pieces), remove banned tags, deduplicate keeping first occurrences. -/
def parseOutput (rawOutput : String) : List String :=
  let t1 := specialTokens.foldl (fun acc tok => replaceAll acc tok "") rawOutput
  let t2 : String := ⟨unescBr t1.data⟩
  let tags := (splitComma t2).filterMap (fun t =>
    let u := pyStrip t
    if u = "" then none else some (pyLower u))
  let finalTags := tags.filter (fun t => !(hasStr banTags t))
  dedupFirst finalTags

/-! ### Embedding of the TIPO merge and enhancement step
(`model_runner.py`, `_call_tipo` and Step 3 of `generate_themes`) -/

/-- One pass of the `seen`-set merge loop in `_call_tipo`: append each
element not already present. -/
def mergePhase (acc : List String) : List String → List String
  | [] => acc
  | t :: ts => mergePhase (if hasStr acc t then acc else acc ++ [t]) ts

/-- The merge at the end of `_call_tipo`: lower-cased originals first
(first occurrence wins), then new tags not already present. -/
def mergeTags (baseTagsList newTags : List String) : List String :=
  mergePhase (mergePhase [] (baseTagsList.map pyLower)) newTags

/-- The outcome of the externally-effectful part of a `_call_tipo` call:
`llama-cpp-python` absent, a model-load exception, an inference
exception, or a successful inference returning raw text. -/
inductive TipoOutcome where
  | notInstalled
  | loadFail
  | inferFail
  | output (raw : String)
deriving DecidableEq, Repr

/-- Embedding of `_call_tipo`'s visible result: every failure path
returns `base_tags` unchanged; a successful inference returns the merged,
comma-joined tag string. -/
def callTipo (oc : TipoOutcome) (baseTags : String) : String :=
  let baseTagsList := stripSplit baseTags
  match oc with
  | .notInstalled => baseTags
  | .loadFail => baseTags
  | .inferFail => baseTags
  | .output raw => joinSep ", " (mergeTags baseTagsList (parseOutput raw))

/-- Embedding of the Step-3 per-theme body in `generate_themes`: themes
with a falsy `short_concept` are skipped; otherwise the keyword list is
joined into `base_tags`, `_call_tipo` runs, and a truthy result string is
split back into the theme's `keywords`. -/
def enhanceTheme (oc : TipoOutcome) (th : Theme) : Theme :=
  if th.short_concept = "" then th
  else
    let baseTags := joinSep ", " th.keywords
    let generated := callTipo oc baseTags
    if generated = "" then th
    else { th with keywords := stripSplit generated }

/-! ### Embedding of the llama.cpp model cache
(`model_runner.py`, `unload_model` and the load guards in
`_call_llama_cpp` / `_call_tipo`) -/

/-- The runner's resident-model state: `_llama` presence plus the
identity key `(_llama_model_path, _llama_use_gpu)`, and a load counter
for specification purposes. -/
structure LlamaState where
  loaded : Bool
  mpath : Option String
  mgpu : Option Bool
  loadCount : Nat
deriving DecidableEq, Repr

/-- The runner's initial state (`_llama = None`). -/
def llamaInit : LlamaState := ⟨false, none, none, 0⟩

/-- Observable resource events. -/
inductive LlamaEv where
  | unload
  | load (path : String) (gpu : Bool)
deriving DecidableEq, Repr

/-- Embedding of `unload_model`: release only when a model is resident. -/
def unloadModel (st : LlamaState) : LlamaState × List LlamaEv :=
  if st.loaded then ({ st with loaded := false, mpath := none, mgpu := none }, [.unload])
  else (st, [])

/-- Embedding of the shared load guard: reload exactly when `_llama is
None or self._llama_model_path != model_path or self._llama_use_gpu !=
use_gpu`, releasing the old handle first. -/
def ensureLoaded (st : LlamaState) (path : String) (gpu : Bool) :
    LlamaState × List LlamaEv :=
  if st.loaded = false ∨ st.mpath ≠ some path ∨ st.mgpu ≠ some gpu then
    let (st1, evs) := unloadModel st
    ({ st1 with
        loaded := true, mpath := some path, mgpu := some gpu,
        loadCount := st1.loadCount + 1 },
      evs ++ [.load path gpu])
  else (st, [])

/-! ### Embedding of `_execute_inference` dispatch
(`model_runner.py`, with `_call_openai_like` and the configuration
checks of `_call_llama_cpp`) -/

/-- The provider-relevant inference configuration fields.  Fields are
`Option`s; `none` stands for an absent key (Python `cfg.get` returning
`None`). -/
structure InferConfig where
  model : Option String := none
  base_url : Option String := none
  api_key : Option String := none
  model_path : Option String := none
  use_gpu : Option Bool := none
  n_gpu_layers : Option Int := none
  n_ctx : Option Int := none
deriving DecidableEq, Repr

/-- The runner's constructor defaults used as `or`-fallbacks. -/
structure RunnerDefaults where
  default_model : Option String
  default_base_url : Option String
  default_api_key : Option String
deriving DecidableEq, Repr

/-- Python `a or b` on optional strings: an absent or empty value falls
through to the default. -/
def pyOrStr (a b : Option String) : Option String :=
  match a with
  | some s => if s = "" then b else some s
  | none => b

/-- Python `int(a or d)` on optional integers: absent or zero falls
through to the default. -/
def pyOrInt (a : Option Int) (d : Int) : Int :=
  match a with
  | some n => if n = 0 then d else n
  | none => d

/-- The visible effect of a dispatched inference: a stateless
chat-completion request through the OpenAI client, or a local llama.cpp
completion with the resolved load parameters. -/
inductive InferAction where
  | chatCall (provider : String) (model baseUrl apiKey : Option String)
  | llamaCall (path : String) (gpu : Bool) (nGpuLayers nCtx : Int)
deriving DecidableEq, Repr

/-- The exceptions `_execute_inference` itself raises before any external
call: `ValueError("Unknown provider: ...")`, and for the `llama_cpp`
branch `RuntimeError("llama-cpp-python not installed.")` /
`RuntimeError("No model_path provided for llama_cpp.")`. -/
inductive InferFailure where
  | unknownProvider (p : String)
  | llamaNotInstalled
  | noModelPath
deriving DecidableEq, Repr

/-- Embedding of `_execute_inference` (with the prompt abstracted away):
`api`/`vllm` build an OpenAI client from whatever fields resolve — no
required-field validation (`vllm` substitutes the literal `"DUMMY"` key);
`llama_cpp` requires `llama-cpp-python` and a truthy model path (config
or `LLAMA_CPP_MODEL_PATH` environment); all other provider ids fail. -/
def executeInference (llamaInstalled : Bool) (envModelPath : Option String)
    (dflt : RunnerDefaults) (provider : String) (cfg : InferConfig) :
    Except InferFailure InferAction :=
  let model := pyOrStr cfg.model dflt.default_model
  let baseUrl := pyOrStr cfg.base_url dflt.default_base_url
  let apiKey := pyOrStr cfg.api_key dflt.default_api_key
  if provider = "api" then
    .ok (.chatCall "api" model baseUrl apiKey)
  else if provider = "vllm" then
    .ok (.chatCall "vllm" model baseUrl (some (apiKey.getD "DUMMY")))
  else if provider = "llama_cpp" then
    if llamaInstalled = false then .error .llamaNotInstalled
    else
      match pyOrStr cfg.model_path envModelPath with
      | none => .error .noModelPath
      | some p =>
        if p = "" then .error .noModelPath
        else
          let gpu := cfg.use_gpu.getD true
          .ok (.llamaCall p gpu
            (pyOrInt cfg.n_gpu_layers (if gpu then -1 else 0))
            (pyOrInt cfg.n_ctx 4096))
  else .error (.unknownProvider provider)

/-! ### Embedding of the keyword dispatch in
`ThemeAgent._build_prompt_tags_from_keywords` (`theme_agent.py`) -/

/-- The per-category tag lists the dispatch loop appends into. -/
structure Buckets where
  clothing : List String
  mood : List String
  setting : List String
  expression : List String
  action : List String
  artistic : List String
  object : List String
deriving DecidableEq, Repr

/-- Buckets with every category empty (the fallback base template of
`_get_base_prompt_template`). -/
def emptyBuckets : Buckets := ⟨[], [], [], [], [], [], []⟩

/-- The clothing test of the dispatch loop:
`"bikini" in k or "swimsuit" in k or "uniform" in k` on the lowercased
keyword. -/
def isClothingKw (kw : String) : Bool :=
  let k := pyLower kw
  containsSub k "bikini" || containsSub k "swimsuit" || containsSub k "uniform"

/-- The setting test of the dispatch loop:
`"beach" in k or "street" in k or "room" in k or "stage" in k`. -/
def isSettingKw (kw : String) : Bool :=
  let k := pyLower kw
  containsSub k "beach" || containsSub k "street" || containsSub k "room" ||
    containsSub k "stage"

/-- The accessory test of the dispatch loop:
`"cat_ears" in k or "ribbon" in k or "accessory" in k` (its branch files
into `object`, like the final catch-all). -/
def isAccessoryKw (kw : String) : Bool :=
  let k := pyLower kw
  containsSub k "cat_ears" || containsSub k "ribbon" || containsSub k "accessory"

/-- One iteration of the `for kw in keywords` dispatch: first match wins;
both the accessory branch and the catch-all append to `object`. -/
def keywordStep (b : Buckets) (kw : String) : Buckets :=
  if isClothingKw kw then { b with clothing := b.clothing ++ [kw] }
  else if isSettingKw kw then { b with setting := b.setting ++ [kw] }
  else if isAccessoryKw kw then { b with object := b.object ++ [kw] }
  else { b with object := b.object ++ [kw] }

/-- The whole dispatch loop over a keyword list. -/
def dispatchKeywords (b : Buckets) : List String → Buckets
  | [] => b
  | kw :: rest => dispatchKeywords (keywordStep b kw) rest

/-! ### Lemmas about the `seen`-set loops -/

theorem hasStr_nil (x : String) : hasStr [] x = false := rfl

theorem hasStr_cons (a x : String) (t : List String) :
    hasStr (a :: t) x = (a == x || hasStr t x) := rfl

theorem hasStr_eq_mem (l : List String) (x : String) :
    hasStr l x = true ↔ x ∈ l := by
  induction l with
  | nil => simp [hasStr]
  | cons a t ih =>
    simp only [hasStr, Bool.or_eq_true, beq_iff_eq, List.mem_cons, ih]
    tauto

theorem hasStr_append (l₁ l₂ : List String) (x : String) :
    hasStr (l₁ ++ l₂) x = (hasStr l₁ x || hasStr l₂ x) := by
  induction l₁ with
  | nil => simp [hasStr]
  | cons a t ih => simp [hasStr, ih, Bool.or_assoc]

theorem dedupFirstAux_head_t (seen : List String) (a : String) (t : List String)
    (hc : hasStr seen a = true) :
    dedupFirstAux seen (a :: t) = dedupFirstAux seen t := by
  simp [dedupFirstAux, hc]

theorem dedupFirstAux_head_f (seen : List String) (a : String) (t : List String)
    (hc : hasStr seen a = false) :
    dedupFirstAux seen (a :: t) = a :: dedupFirstAux (a :: seen) t := by
  simp [dedupFirstAux, hc]

theorem dedupFirstAux_congr (l : List String) :
    ∀ s₁ s₂ : List String, (∀ x, hasStr s₁ x = hasStr s₂ x) →
      dedupFirstAux s₁ l = dedupFirstAux s₂ l := by
  induction l with
  | nil => intro s₁ s₂ _; rfl
  | cons a t ih =>
    intro s₁ s₂ h
    cases hc : hasStr s₂ a with
    | true =>
      rw [dedupFirstAux_head_t s₁ a t ((h a).trans hc),
        dedupFirstAux_head_t s₂ a t hc]
      exact ih s₁ s₂ h
    | false =>
      rw [dedupFirstAux_head_f s₁ a t ((h a).trans hc),
        dedupFirstAux_head_f s₂ a t hc]
      refine congrArg (a :: ·) (ih (a :: s₁) (a :: s₂) ?_)
      intro x; simp [hasStr, h x]

theorem mergePhase_eq_dedup (l : List String) :
    ∀ acc, mergePhase acc l = acc ++ dedupFirstAux acc l := by
  induction l with
  | nil => intro acc; simp [mergePhase, dedupFirstAux]
  | cons a t ih =>
    intro acc
    cases hc : hasStr acc a with
    | true => simp [mergePhase, hc, ih, dedupFirstAux_head_t acc a t hc]
    | false =>
      rw [dedupFirstAux_head_f acc a t hc]
      simp only [mergePhase, hc]
      rw [if_neg (by simp), ih (acc ++ [a]), List.append_assoc]
      refine congrArg (acc ++ ·) (congrArg (a :: ·) ?_)
      refine dedupFirstAux_congr t (acc ++ [a]) (a :: acc) ?_
      intro x; simp [hasStr_append, hasStr, Bool.or_comm]

theorem mem_dedupFirstAux (l : List String) :
    ∀ seen x, x ∈ dedupFirstAux seen l → x ∈ l := by
  induction l with
  | nil => intro seen x h; simp [dedupFirstAux] at h
  | cons a t ih =>
    intro seen x h
    cases hc : hasStr seen a with
    | true =>
      rw [dedupFirstAux_head_t seen a t hc] at h
      exact List.mem_cons_of_mem _ (ih seen x h)
    | false =>
      rw [dedupFirstAux_head_f seen a t hc, List.mem_cons] at h
      rcases h with h | h
      · exact h ▸ List.mem_cons_self _ _
      · exact List.mem_cons_of_mem _ (ih (a :: seen) x h)

theorem dedupFirstAux_not_seen (l : List String) :
    ∀ seen x, x ∈ dedupFirstAux seen l → hasStr seen x = false := by
  induction l with
  | nil => intro seen x h; simp [dedupFirstAux] at h
  | cons a t ih =>
    intro seen x h
    cases hc : hasStr seen a with
    | true =>
      rw [dedupFirstAux_head_t seen a t hc] at h
      exact ih seen x h
    | false =>
      rw [dedupFirstAux_head_f seen a t hc, List.mem_cons] at h
      rcases h with h | h
      · exact h ▸ hc
      · have := ih (a :: seen) x h
        simp only [hasStr, Bool.or_eq_false_iff] at this
        exact this.2

theorem dedupFirstAux_nodup (l : List String) :
    ∀ seen, (dedupFirstAux seen l).Nodup := by
  induction l with
  | nil => intro seen; simp [dedupFirstAux]
  | cons a t ih =>
    intro seen
    cases hc : hasStr seen a with
    | true =>
      rw [dedupFirstAux_head_t seen a t hc]
      exact ih seen
    | false =>
      rw [dedupFirstAux_head_f seen a t hc, List.nodup_cons]
      refine ⟨fun hmem => ?_, ih (a :: seen)⟩
      have := dedupFirstAux_not_seen t (a :: seen) a hmem
      simp [hasStr] at this

theorem dedupFirstAux_filter (l : List String) :
    ∀ s₁ s₂, (∀ x, hasStr s₂ x = true → hasStr s₁ x = true) →
      dedupFirstAux s₁ l = (dedupFirstAux s₂ l).filter (fun t => !(hasStr s₁ t)) := by
  induction l with
  | nil => intro s₁ s₂ _; rfl
  | cons a t ih =>
    intro s₁ s₂ hsub
    cases h2 : hasStr s₂ a with
    | true =>
      have h1 : hasStr s₁ a = true := hsub a h2
      rw [dedupFirstAux_head_t s₂ a t h2, dedupFirstAux_head_t s₁ a t h1]
      exact ih s₁ s₂ hsub
    | false =>
      rw [dedupFirstAux_head_f s₂ a t h2]
      cases h1 : hasStr s₁ a with
      | true =>
        rw [dedupFirstAux_head_t s₁ a t h1, List.filter_cons]
        have hsub2 : ∀ x, hasStr (a :: s₂) x = true → hasStr s₁ x = true := by
          intro x hx
          simp only [hasStr, Bool.or_eq_true, beq_iff_eq] at hx
          rcases hx with hx | hx
          · exact hx ▸ h1
          · exact hsub x hx
        simpa [h1] using ih s₁ (a :: s₂) hsub2
      | false =>
        have hsub' : ∀ x, hasStr (a :: s₂) x = true → hasStr (a :: s₁) x = true := by
          intro x hx
          simp only [hasStr, Bool.or_eq_true, beq_iff_eq] at hx ⊢
          rcases hx with hx | hx
          · exact Or.inl hx
          · exact Or.inr (hsub x hx)
        rw [dedupFirstAux_head_f s₁ a t h1, List.filter_cons]
        simp only [h1, Bool.not_false, if_pos rfl]
        refine congrArg (a :: ·) ?_
        rw [ih (a :: s₁) (a :: s₂) hsub']
        refine List.filter_congr ?_
        intro x hx
        have hns := dedupFirstAux_not_seen t (a :: s₂) x hx
        simp only [hasStr, Bool.or_eq_false_iff] at hns
        simp [hasStr, hns.1]

theorem dedupFirstAux_of_fresh (l : List String) :
    ∀ seen, l.Nodup → (∀ x ∈ l, hasStr seen x = false) →
      dedupFirstAux seen l = l := by
  induction l with
  | nil => intro seen _ _; rfl
  | cons a t ih =>
    intro seen hnd hfresh
    rw [dedupFirstAux_head_f seen a t (hfresh a (List.mem_cons_self _ _))]
    refine congrArg (a :: ·) (ih (a :: seen) (List.Nodup.of_cons hnd) ?_)
    intro x hx
    have hne : a ≠ x := fun he => (List.nodup_cons.mp hnd).1 (he ▸ hx)
    simp [hasStr, hfresh x (List.mem_cons_of_mem _ hx), hne]

theorem dedupFirst_idem (l : List String) :
    dedupFirst (dedupFirst l) = dedupFirst l := by
  refine dedupFirstAux_of_fresh _ [] (dedupFirstAux_nodup l []) ?_
  intro x _; rfl

theorem parseOutput_dedup (raw : String) :
    dedupFirst (parseOutput raw) = parseOutput raw := by
  simp only [parseOutput]
  exact dedupFirst_idem _

theorem parseOutput_nodup (raw : String) : (parseOutput raw).Nodup :=
  dedupFirstAux_nodup _ []

theorem mergeTags_spec (base new : List String) :
    mergeTags base new =
      dedupFirst (base.map pyLower) ++
        (dedupFirst new).filter
          (fun t => !(hasStr (dedupFirst (base.map pyLower)) t)) := by
  simp only [mergeTags, dedupFirst]
  rw [mergePhase_eq_dedup (base.map pyLower) [], List.nil_append,
    mergePhase_eq_dedup new (dedupFirstAux [] (base.map pyLower))]
  refine congrArg (dedupFirstAux [] (base.map pyLower) ++ ·) ?_
  exact dedupFirstAux_filter new _ [] (fun x hx => by simp [hasStr] at hx)

theorem mergeTags_nodup (base new : List String) :
    (mergeTags base new).Nodup := by
  rw [mergeTags_spec]
  refine List.Nodup.append (dedupFirstAux_nodup _ []) ?_ ?_
  · exact List.Nodup.filter _ (dedupFirstAux_nodup new [])
  · intro x hx₁ hx₂
    have := (List.mem_filter.mp hx₂).2
    simp only [Bool.not_eq_true'] at this
    rw [← hasStr_eq_mem] at hx₁
    simp [this] at hx₁

/-! ### Lemmas about extraction normalization -/

theorem normalizeSlice_len (xs : List JVal) (count : Nat) :
    (normalizeSlice xs count).length ≤ max count 1 := by
  refine le_trans (List.length_filterMap_le _ _) ?_
  exact List.length_take_le _ _

theorem afterParse_len (d : JVal) (count : Nat) (l : List Theme)
    (h : afterParse d count = .ok l) : l.length ≤ max count 1 := by
  cases d with
  | arr xs =>
    simp only [afterParse, Except.ok.injEq] at h
    exact h ▸ normalizeSlice_len xs count
  | obj kvs =>
    simp only [afterParse] at h
    cases hg : objGet kvs "themes" with
    | none => rw [hg] at h; cases h
    | some v =>
      rw [hg] at h
      cases v with
      | arr xs =>
        simp only [sliceThemes, Except.ok.injEq] at h
        exact h ▸ normalizeSlice_len xs count
      | str s2 =>
        simp only [sliceThemes, Except.ok.injEq] at h
        simp [← h]
      | null => simp [sliceThemes] at h
      | boolean b => simp [sliceThemes] at h
      | intNum n => simp [sliceThemes] at h
      | floatNum lit => simp [sliceThemes] at h
      | obj kvs2 => simp [sliceThemes] at h
  | null => simp [afterParse] at h
  | boolean b => simp [afterParse] at h
  | intNum n => simp [afterParse] at h
  | floatNum lit => simp [afterParse] at h
  | str s2 => simp [afterParse] at h

theorem parseJsonResult_len (s : String) (count : Nat) (l : List Theme)
    (h : parseJsonResult s count = .ok l) : l.length ≤ max count 1 := by
  simp only [parseJsonResult] at h
  split at h
  · exact afterParse_len _ _ _ h
  · split at h
    · split at h
      · exact afterParse_len _ _ _ h
      · cases h
    · cases h

/-! ### Lemmas about the comma join / split round trip -/

theorem strEta (s : String) : (⟨s.data⟩ : String) = s := rfl

theorem splitCommaAux_ne_nil (l : List Char) : splitCommaAux l ≠ [] := by
  cases l with
  | nil => simp [splitCommaAux]
  | cons c t =>
    by_cases hc : c = ','
    · simp [splitCommaAux, hc]
    · simp only [splitCommaAux, if_neg hc]
      cases h : splitCommaAux t <;> simp

theorem splitCommaAux_comma_free (a : List Char) (h : ',' ∉ a) :
    splitCommaAux a = [a] := by
  induction a with
  | nil => rfl
  | cons c t ih =>
    have hc : c ≠ ',' := fun he => h (he ▸ List.mem_cons_self _ _)
    have ht : ',' ∉ t := fun hm => h (List.mem_cons_of_mem _ hm)
    simp [splitCommaAux, hc, ih ht]

theorem splitCommaAux_cons_ne (c : Char) (l : List Char) (hc : c ≠ ',') :
    splitCommaAux (c :: l) =
      match splitCommaAux l with
      | [] => [[c]]
      | h :: r => (c :: h) :: r := by
  simp [splitCommaAux, hc]

theorem splitCommaAux_append (a r : List Char) (h : ',' ∉ a) :
    splitCommaAux (a ++ ',' :: r) = a :: splitCommaAux r := by
  induction a with
  | nil => simp [splitCommaAux]
  | cons c t ih =>
    have hc : c ≠ ',' := fun he => h (he ▸ List.mem_cons_self _ _)
    have ht : ',' ∉ t := fun hm => h (List.mem_cons_of_mem _ hm)
    rw [show (c :: t) ++ ',' :: r = c :: (t ++ ',' :: r) from rfl,
      splitCommaAux_cons_ne c _ hc, ih ht]

theorem splitCommaAux_space (l : List Char) (h₀ : List Char) (t₀ : List (List Char))
    (h : splitCommaAux l = h₀ :: t₀) :
    splitCommaAux (' ' :: l) = (' ' :: h₀) :: t₀ := by
  simp [splitCommaAux, h]

theorem pyStrip_space (l : List Char) : pyStrip ⟨' ' :: l⟩ = pyStrip ⟨l⟩ := by
  simp [pyStrip, stripChars, List.dropWhile, show isPySpace ' ' = true from by decide]

theorem pieceToTag_space (l : List Char) : pieceToTag ⟨' ' :: l⟩ = pieceToTag ⟨l⟩ := by
  simp [pieceToTag, pyStrip_space]

theorem pieceToTag_clean (k : String) (h1 : k ≠ "") (h2 : pyStrip k = k) :
    pieceToTag k = some k := by
  simp [pieceToTag, h2, h1]

theorem stripSplit_join (ks : List String)
    (h : ∀ k ∈ ks, k ≠ "" ∧ pyStrip k = k ∧ ',' ∉ k.data) :
    stripSplit (joinSep ", " ks) = ks := by
  induction ks with
  | nil => rfl
  | cons k rest ih =>
    obtain ⟨h1, h2, h3⟩ := h k (List.mem_cons_self _ _)
    have hrest := fun x hx => h x (List.mem_cons_of_mem _ hx)
    cases rest with
    | nil =>
      simp only [joinSep, stripSplit, splitComma,
        splitCommaAux_comma_free k.data h3, List.map_cons, List.map_nil,
        List.filterMap_cons, List.filterMap_nil, strEta,
        pieceToTag_clean k h1 h2]
    | cons k2 rest2 =>
      have hJ : joinSep ", " (k :: k2 :: rest2) =
          k ++ ", " ++ joinSep ", " (k2 :: rest2) := rfl
      obtain ⟨h₀, t₀, hsplit⟩ :
          ∃ h₀ t₀, splitCommaAux (joinSep ", " (k2 :: rest2)).data = h₀ :: t₀ := by
        cases hs : splitCommaAux (joinSep ", " (k2 :: rest2)).data with
        | nil => exact absurd hs (splitCommaAux_ne_nil _)
        | cons a b => exact ⟨a, b, rfl⟩
      have hdata : (k ++ ", " ++ joinSep ", " (k2 :: rest2)).data =
          k.data ++ ',' :: ' ' :: (joinSep ", " (k2 :: rest2)).data := by
        show (k.data ++ (", ").data) ++ (joinSep ", " (k2 :: rest2)).data = _
        simp [List.append_assoc]
      rw [hJ]
      simp only [stripSplit, splitComma, hdata,
        splitCommaAux_append k.data _ h3,
        splitCommaAux_space _ h₀ t₀ hsplit, List.map_cons, List.filterMap_cons,
        strEta, pieceToTag_clean k h1 h2, pieceToTag_space h₀]
      have ihr := ih hrest
      simp only [stripSplit, splitComma, hsplit, List.map_cons,
        List.filterMap_cons] at ihr
      rw [ihr]

/-- The well-formedness of one keyword under the `", ".join` /
`split(",")`+`strip()` round trip of the enhancement fallback path. -/
def cleanKeyword (k : String) : Prop :=
  k ≠ "" ∧ pyStrip k = k ∧ ',' ∉ k.data

theorem joinSep_ne_empty (k : String) (ks : List String) (h1 : k ≠ "") :
    joinSep ", " (k :: ks) ≠ "" := by
  cases ks with
  | nil => simpa [joinSep] using h1
  | cons k2 rest =>
    intro he
    have : (joinSep ", " (k :: k2 :: rest)).data = [] := by rw [he]
    simp only [joinSep] at this
    have hk : (k ++ ", " ++ joinSep ", " (k2 :: rest)).data =
        k.data ++ (", ").data ++ (joinSep ", " (k2 :: rest)).data := rfl
    rw [hk] at this
    rcases List.append_eq_nil.mp this with ⟨hl, _⟩
    rcases List.append_eq_nil.mp hl with ⟨_, hcomma⟩
    cases hcomma

theorem callTipo_fail (oc : TipoOutcome) (baseTags : String)
    (hoc : oc = .notInstalled ∨ oc = .loadFail ∨ oc = .inferFail) :
    callTipo oc baseTags = baseTags := by
  rcases hoc with h | h | h <;> subst h <;> rfl

theorem enhanceTheme_fail_clean (th : Theme) (oc : TipoOutcome)
    (hoc : oc = .notInstalled ∨ oc = .loadFail ∨ oc = .inferFail)
    (hk : ∀ k ∈ th.keywords, cleanKeyword k) :
    enhanceTheme oc th = th := by
  obtain ⟨tt, sc, ks, md⟩ := th
  by_cases hsc : sc = ""
  · simp [enhanceTheme, hsc]
  · simp only [enhanceTheme, hsc, if_neg (by simpa using hsc)]
    rw [callTipo_fail oc _ hoc]
    cases ks with
    | nil => simp [joinSep]
    | cons k rest =>
      have h1 : k ≠ "" := (hk k (List.mem_cons_self _ _)).1
      rw [if_neg (joinSep_ne_empty k rest h1)]
      rw [stripSplit_join (k :: rest) (fun x hx => hk x hx)]
      simp

/-! ### The dispatch loop characterized by per-keyword selectors -/

theorem dispatchKeywords_spec (kws : List String) : ∀ b : Buckets,
    (dispatchKeywords b kws).clothing = b.clothing ++ kws.filter isClothingKw ∧
    (dispatchKeywords b kws).setting =
      b.setting ++ kws.filter (fun kw => !isClothingKw kw && isSettingKw kw) ∧
    (dispatchKeywords b kws).object =
      b.object ++ kws.filter (fun kw => !isClothingKw kw && !isSettingKw kw) ∧
    (dispatchKeywords b kws).expression = b.expression ∧
    (dispatchKeywords b kws).action = b.action ∧
    (dispatchKeywords b kws).artistic = b.artistic ∧
    (dispatchKeywords b kws).mood = b.mood := by
  induction kws with
  | nil => intro b; simp [dispatchKeywords]
  | cons kw rest ih =>
    intro b
    rw [show dispatchKeywords b (kw :: rest) =
      dispatchKeywords (keywordStep b kw) rest from rfl]
    cases hcl : isClothingKw kw with
    | true =>
      have hstep : keywordStep b kw = { b with clothing := b.clothing ++ [kw] } := by
        simp [keywordStep, hcl]
      rw [hstep]
      obtain ⟨e1, e2, e3, e4, e5, e6, e7⟩ := ih { b with clothing := b.clothing ++ [kw] }
      refine ⟨?_, ?_, ?_, ?_, ?_, ?_, ?_⟩ <;>
        simp [e1, e2, e3, e4, e5, e6, e7, hcl, List.filter_cons, List.append_assoc]
    | false =>
      cases hse : isSettingKw kw with
      | true =>
        have hstep : keywordStep b kw = { b with setting := b.setting ++ [kw] } := by
          simp [keywordStep, hcl, hse]
        rw [hstep]
        obtain ⟨e1, e2, e3, e4, e5, e6, e7⟩ := ih { b with setting := b.setting ++ [kw] }
        refine ⟨?_, ?_, ?_, ?_, ?_, ?_, ?_⟩ <;>
          simp [e1, e2, e3, e4, e5, e6, e7, hcl, hse, List.filter_cons,
            List.append_assoc]
      | false =>
        have hstep : keywordStep b kw = { b with object := b.object ++ [kw] } := by
          simp [keywordStep, hcl, hse]
        rw [hstep]
        obtain ⟨e1, e2, e3, e4, e5, e6, e7⟩ := ih { b with object := b.object ++ [kw] }
        refine ⟨?_, ?_, ?_, ?_, ?_, ?_, ?_⟩ <;>
          simp [e1, e2, e3, e4, e5, e6, e7, hcl, hse, List.filter_cons,
            List.append_assoc]

/-! ### Claim theorems -/

/-- C1 counterexample: the keyword dispatch of
`_build_prompt_tags_from_keywords` has no expression, action or artistic
branch: on the spec's example list, `"smile"` and `"masterpiece"` land in
the `object` category, the `expression` additions are empty — not
`["smile"]` as claimed. -/
theorem C1_counterexample :
    (dispatchKeywords emptyBuckets
      ["bikini", "beach", "smile", "masterpiece", "random_object"]).expression = [] ∧
    (dispatchKeywords emptyBuckets
      ["bikini", "beach", "smile", "masterpiece", "random_object"]).artistic = [] ∧
    (dispatchKeywords emptyBuckets
      ["bikini", "beach", "smile", "masterpiece", "random_object"]).object =
      ["smile", "masterpiece", "random_object"] ∧
    ([] : List String) ≠ ["smile"] :=
  ⟨by decide, by decide, by decide, by decide⟩

/-- C1 (amended): each keyword is tested in the fixed priority order
clothing (substring sets bikini/swimsuit/uniform — no dress), setting
(beach/street/room/stage), then an accessory test
(cat_ears/ribbon/accessory) whose branch also files into `object`; every
unmatched keyword falls into `object`; no keyword is ever dispatched to
expression, action, artistic or mood; on the example list, `"bikini"` is
the only clothing addition, `"beach"` the only setting addition, and
`"smile"`, `"masterpiece"`, `"random_object"` all fall into `object`. -/
theorem C1_amended :
    (∀ (b : Buckets) (kws : List String),
      (dispatchKeywords b kws).clothing = b.clothing ++ kws.filter isClothingKw ∧
      (dispatchKeywords b kws).setting =
        b.setting ++ kws.filter (fun kw => !isClothingKw kw && isSettingKw kw) ∧
      (dispatchKeywords b kws).object =
        b.object ++ kws.filter (fun kw => !isClothingKw kw && !isSettingKw kw) ∧
      (dispatchKeywords b kws).expression = b.expression ∧
      (dispatchKeywords b kws).action = b.action ∧
      (dispatchKeywords b kws).artistic = b.artistic ∧
      (dispatchKeywords b kws).mood = b.mood) ∧
    (dispatchKeywords emptyBuckets
      ["bikini", "beach", "smile", "masterpiece", "random_object"]).clothing =
      ["bikini"] ∧
    (dispatchKeywords emptyBuckets
      ["bikini", "beach", "smile", "masterpiece", "random_object"]).setting =
      ["beach"] :=
  ⟨fun b kws => dispatchKeywords_spec kws b, by decide, by decide⟩

/-- C2 counterexample: an extraction output whose parse and normalization
produce zero theme drafts is returned as an empty success value — no
error of any kind is raised. -/
theorem C2_counterexample : parseJsonResult "[]" 3 = Except.ok [] := rfl

/-- C2 (amended): whenever the cleaned extraction output parses as a JSON
array, `_parse_json_result` returns normally — in particular an empty
normalized list is a success value, not an `EmptyResultError` (no such
error exists in the code). -/
theorem C2_amended :
    (∀ (s : String) (count : Nat) (xs : List JVal),
        pyLoads (extractArraySlice (stripCodeFences s)) = .ok (.arr xs) →
        parseJsonResult s count = .ok (normalizeSlice xs count)) ∧
    parseJsonResult "[]" 0 = .ok [] := by
  constructor
  · intro s count xs h
    simp [parseJsonResult, h, afterParse]
  · rfl

/-- C2 witness: the general success statement applied to the concrete
empty-array output. -/
theorem C2_witness :
    pyLoads (extractArraySlice (stripCodeFences "[]")) = .ok (.arr []) ∧
    parseJsonResult "[]" 3 = .ok (normalizeSlice [] 3) :=
  ⟨rfl, C2_amended.1 "[]" 3 [] rfl⟩

/-- C3 counterexample: the compatible-server variant (`vllm`) with no
base address configured does not fail with any configuration error — the
gateway proceeds to build the OpenAI client with `base_url = None` and
the dummy credential. -/
theorem C3_counterexample :
    executeInference true none ⟨some "gpt-4.1-mini", none, none⟩ "vllm" {} =
      .ok (.chatCall "vllm" (some "gpt-4.1-mini") none (some "DUMMY")) := rfl

/-- C3 (amended): the dispatcher validates only the `llama_cpp` variant
(a falsy model path after config and environment fallback raises the
missing-path RuntimeError) and raises ValueError for every unrecognized
provider id; the `api` and `vllm` variants perform no required-field
checks — they always proceed to the external chat call, `vllm`
substituting the literal "DUMMY" credential. -/
theorem C3_amended :
    (∀ (inst : Bool) (env : Option String) (dflt : RunnerDefaults)
        (cfg : InferConfig) (p : String),
        p ≠ "api" → p ≠ "vllm" → p ≠ "llama_cpp" →
        executeInference inst env dflt p cfg = .error (.unknownProvider p)) ∧
    (∀ (env : Option String) (dflt : RunnerDefaults) (cfg : InferConfig),
        (pyOrStr cfg.model_path env = none ∨ pyOrStr cfg.model_path env = some "") →
        executeInference true env dflt "llama_cpp" cfg = .error .noModelPath) ∧
    (∀ (inst : Bool) (env : Option String) (dflt : RunnerDefaults)
        (cfg : InferConfig),
        (executeInference inst env dflt "api" cfg).isOk = true) ∧
    (∀ (inst : Bool) (env : Option String) (dflt : RunnerDefaults)
        (cfg : InferConfig),
        executeInference inst env dflt "vllm" cfg =
          .ok (.chatCall "vllm" (pyOrStr cfg.model dflt.default_model)
            (pyOrStr cfg.base_url dflt.default_base_url)
            (some ((pyOrStr cfg.api_key dflt.default_api_key).getD "DUMMY")))) := by
  refine ⟨?_, ?_, ?_, ?_⟩
  · intro inst env dflt cfg p h1 h2 h3
    simp [executeInference, h1, h2, h3]
  · intro env dflt cfg h
    rcases h with h | h <;> simp [executeInference, h]
  · intro inst env dflt cfg
    rfl
  · intro inst env dflt cfg
    rfl

/-- C3 witness: the amended statement at an unrecognized provider id and
at a `llama_cpp` call with no model path anywhere. -/
theorem C3_witness :
    executeInference true none ⟨none, none, none⟩ "ollama" {} =
      .error (.unknownProvider "ollama") ∧
    executeInference true none ⟨none, none, none⟩ "llama_cpp" {} =
      .error .noModelPath :=
  ⟨C3_amended.1 true none ⟨none, none, none⟩ {} "ollama"
      (by decide) (by decide) (by decide),
    C3_amended.2.1 none ⟨none, none, none⟩ {} (Or.inl rfl)⟩

/-- C4 counterexample: on `[{"a":1},{"b":2}` (missing only the closing
bracket) the decoder error is "Expecting ',' delimiter", so the extractor
raises ParseError without attempting any repair — although the claimed
repair (re-close at the last object boundary and retry) would have
parsed successfully. -/
theorem C4_counterexample :
    parseJsonResult "[\x7b\"a\":1\x7d,\x7b\"b\":2\x7d" 5 =
      .error (.parseFail "[\x7b\"a\":1\x7d,\x7b\"b\":2\x7d") ∧
    (pyLoads (repairText (extractArraySlice (stripCodeFences
      "[\x7b\"a\":1\x7d,\x7b\"b\":2\x7d")))).isOk = true :=
  ⟨rfl, rfl⟩

/-- C4 (amended): the repair is attempted only when the decoder error
message is an "Expecting value" error and the bracket-extracted text does
not already end in `]`; otherwise a terminal ParseError carrying the
truncated raw text is raised immediately; when attempted, the repair is
parsed exactly once, with ParseError on a second failure; on the spec's
fixed input the bracket extraction trims to text ending in `]`, so no
repair is attempted and ParseError is raised. -/
theorem C4_amended :
    (∀ (s : String) (count : Nat) (e : JErr),
        pyLoads (extractArraySlice (stripCodeFences s)) = .error e →
        (e ≠ .expectingValue ∨
          endsWithStr (extractArraySlice (stripCodeFences s)) "]" = true) →
        parseJsonResult s count = .error (.parseFail (truncate200 s))) ∧
    (∀ (s : String) (count : Nat) (e2 : JErr),
        pyLoads (extractArraySlice (stripCodeFences s)) = .error .expectingValue →
        endsWithStr (extractArraySlice (stripCodeFences s)) "]" = false →
        pyLoads (repairText (extractArraySlice (stripCodeFences s))) = .error e2 →
        parseJsonResult s count = .error (.parseFail (truncate200 s))) ∧
    (∀ (s : String) (count : Nat) (d : JVal),
        pyLoads (extractArraySlice (stripCodeFences s)) = .error .expectingValue →
        endsWithStr (extractArraySlice (stripCodeFences s)) "]" = false →
        pyLoads (repairText (extractArraySlice (stripCodeFences s))) = .ok d →
        parseJsonResult s count = afterParse d count) ∧
    parseJsonResult
        "[\x7b\"title\":\"A\",\"short_concept\":\"x\",\"keywords\":[],\"mood\":[]\x7d,\x7b\"title\":\"B\"" 5 =
      .error (.parseFail
        "[\x7b\"title\":\"A\",\"short_concept\":\"x\",\"keywords\":[],\"mood\":[]\x7d,\x7b\"title\":\"B\"") := by
  refine ⟨?_, ?_, ?_, rfl⟩
  · intro s count e h h2
    simp only [parseJsonResult, h]
    rw [if_neg]
    rintro ⟨he, hf⟩
    rcases h2 with h2 | h2
    · exact h2 he
    · rw [h2] at hf; cases hf
  · intro s count e2 h hf hrep
    simp only [parseJsonResult, h, hrep]
    simp [hf]
  · intro s count d h hf hrep
    simp only [parseJsonResult, h, hrep]
    simp [hf]

/-- C4 witness: the no-repair branch applied to the spec's fixed input,
whose decoder error is the comma-delimiter kind and whose extracted text
ends in `]`. -/
theorem C4_witness :
    pyLoads (extractArraySlice (stripCodeFences
      "[\x7b\"title\":\"A\",\"short_concept\":\"x\",\"keywords\":[],\"mood\":[]\x7d,\x7b\"title\":\"B\"")) =
      .error .expectingComma ∧
    parseJsonResult
        "[\x7b\"title\":\"A\",\"short_concept\":\"x\",\"keywords\":[],\"mood\":[]\x7d,\x7b\"title\":\"B\"" 5 =
      .error (.parseFail (truncate200
        "[\x7b\"title\":\"A\",\"short_concept\":\"x\",\"keywords\":[],\"mood\":[]\x7d,\x7b\"title\":\"B\"")) :=
  ⟨rfl,
    C4_amended.1
      "[\x7b\"title\":\"A\",\"short_concept\":\"x\",\"keywords\":[],\"mood\":[]\x7d,\x7b\"title\":\"B\"" 5
      .expectingComma rfl (Or.inl (by decide))⟩

/-- C5 counterexample: with requested count 0 the slice `[: max(count, 1)]`
still takes one item, and a present-but-empty source title is kept as the
empty string — the output has length 1 > 0 and an empty title. -/
theorem C5_counterexample :
    parseJsonResult "[\x7b\"title\":\"\"\x7d,\x7b\"short_concept\":\"y\"\x7d]" 0 =
      .ok [⟨"", "", [], []⟩] ∧ ¬ ((1 : Nat) ≤ 0) :=
  ⟨rfl, by decide⟩

/-- C5 (amended): for every parsed extraction output the normalized list
has length at most `max(count, 1)`; per object, the title is the Python
stringification of the source field and equals "Untitled" only when the
field is absent (an empty or non-string source title is kept
stringified), `short_concept` defaults to the empty string, and
`keywords`/`mood` are coerced to string lists (bare string promotes to a
one-element list, any other scalar stringifies) — as the demonstration
input exhibits. -/
theorem C5_amended :
    (∀ (s : String) (count : Nat) (l : List Theme),
        parseJsonResult s count = .ok l → l.length ≤ max count 1) ∧
    parseJsonResult
        "[\x7b\"keywords\":\"k\",\"mood\":5\x7d,\x7b\"title\":\"\",\"short_concept\":\"y\",\"keywords\":[\"a\",\"b\"]\x7d, 7]" 5 =
      .ok [⟨"Untitled", "", ["k"], ["5"]⟩, ⟨"", "y", ["a", "b"], []⟩] :=
  ⟨parseJsonResult_len, rfl⟩

/-- C5 witness: the length bound applied to a concrete parsed output. -/
theorem C5_witness :
    parseJsonResult "[\x7b\"title\":\"X\"\x7d]" 2 = .ok [⟨"X", "", [], []⟩] ∧
    ([⟨"X", "", [], []⟩] : List Theme).length ≤ max 2 1 :=
  ⟨rfl, C5_amended.1 "[\x7b\"title\":\"X\"\x7d]" 2 [⟨"X", "", [], []⟩] rfl⟩

/-- C6: the `_call_tipo` merge keeps the lower-cased originals first in
first-occurrence order, then appends the newly produced (already
lower-cased, deduplicated) enhancer tags not already present; the result
is fully deduplicated; and the spec's example merge holds exactly. -/
theorem C6_merge :
    (∀ (base : List String) (raw : String),
      mergeTags base (parseOutput raw) =
        dedupFirst (base.map pyLower) ++
          (parseOutput raw).filter
            (fun t => !(hasStr (dedupFirst (base.map pyLower)) t)) ∧
      (mergeTags base (parseOutput raw)).Nodup) ∧
    mergeTags ["sky", "Sky", "cloud"] ["sky", "sunset"] =
      ["sky", "cloud", "sunset"] := by
  refine ⟨fun base raw => ⟨?_, mergeTags_nodup _ _⟩, by decide⟩
  rw [mergeTags_spec, parseOutput_dedup]

/-- C7: enhancer output parsing always yields a deduplicated list free of
every banned tag; the concrete runs show special-token removal, bracket
unescaping, comma splitting, strip/lowercase and ban-list filtering. -/
theorem C7_parse_output :
    (∀ raw : String,
      (parseOutput raw).Nodup ∧
      (parseOutput raw).filter (fun t => hasStr banTags t) = []) ∧
    parseOutput "<|general|> watermark, blue \\(sky\\)" = ["blue (sky)"] ∧
    parseOutput "Watermark, Blue Sky, blue sky" = ["blue sky"] := by
  refine ⟨fun raw => ⟨parseOutput_nodup raw, ?_⟩, by decide, by decide⟩
  rw [List.filter_eq_nil_iff]
  intro t ht
  simp only [parseOutput, dedupFirst] at ht
  have h2 := mem_dedupFirstAux _ [] t ht
  have h3 := (List.mem_filter.mp h2).2
  simp only [Bool.not_eq_true'] at h3
  simp [h3]

/-- C8: the local-process backend keeps a single cached handle keyed by
(model path, GPU flag): a cache hit is a complete no-op, a miss releases
any resident handle before exactly one load, and two successive calls
with the same key starting from the fresh runner perform exactly one
load with no event on the second call. -/
theorem C8_model_cache :
    ∀ (st : LlamaState) (p : String) (g : Bool),
      ((st.loaded = true ∧ st.mpath = some p ∧ st.mgpu = some g) →
        ensureLoaded st p g = (st, [])) ∧
      (¬(st.loaded = true ∧ st.mpath = some p ∧ st.mgpu = some g) →
        ensureLoaded st p g =
          (⟨true, some p, some g, st.loadCount + 1⟩,
            (if st.loaded then [LlamaEv.unload] else []) ++ [.load p g])) ∧
      ((ensureLoaded (ensureLoaded llamaInit p g).1 p g).1.loadCount = 1 ∧
        (ensureLoaded (ensureLoaded llamaInit p g).1 p g).2 = []) := by
  intro st p g
  obtain ⟨ld, mp, mg, lc⟩ := st
  refine ⟨?_, ?_, ?_, ?_⟩
  · rintro ⟨h1, h2, h3⟩
    simp only at h1 h2 h3
    subst h1; subst h2; subst h3
    simp [ensureLoaded]
  · intro hn
    simp only at hn
    cases ld with
    | false =>
      simp [ensureLoaded, unloadModel]
    | true =>
      have hor : mp ≠ some p ∨ mg ≠ some g := by
        by_contra hc
        push_neg at hc
        exact hn ⟨rfl, hc.1, hc.2⟩
      rw [ensureLoaded, if_pos (Or.inr (by simpa using hor))]
      simp [unloadModel]
  · simp [ensureLoaded, unloadModel, llamaInit]
  · simp [ensureLoaded, unloadModel, llamaInit]

/-- C8 witness: a cache hit is a no-op and a key change swaps the handle
with an unload before the single load. -/
theorem C8_witness :
    ensureLoaded ⟨true, some "m", some true, 1⟩ "m" true =
      (⟨true, some "m", some true, 1⟩, []) ∧
    ensureLoaded ⟨true, some "m", some true, 1⟩ "x" true =
      (⟨true, some "x", some true, 2⟩, [.unload, .load "x" true]) :=
  ⟨(C8_model_cache ⟨true, some "m", some true, 1⟩ "m" true).1 ⟨rfl, rfl, rfl⟩,
    by
      have h2 := (C8_model_cache ⟨true, some "m", some true, 1⟩ "x" true).2.1
        (fun h => by simp at h)
      simpa using h2⟩

/-- C9 counterexample: when enhancement fails, the keyword list is pushed
through a `", ".join` / `split(",")` round trip, so a keyword containing
a comma is split apart — the original list is not returned unchanged. -/
theorem C9_counterexample :
    enhanceTheme .loadFail ⟨"T", "c", ["a,b"], []⟩ = ⟨"T", "c", ["a", "b"], []⟩ ∧
    (["a", "b"] : List String) ≠ ["a,b"] :=
  ⟨by decide, by decide⟩

/-- C9 (amended): every failure of the enhancement stage (library
missing, model load error, inference error) is absorbed inside
`_call_tipo`, and the theme's keyword list survives unchanged whenever
each keyword is non-empty, already stripped and comma-free; otherwise it
is re-split on commas with whitespace stripped — the request itself never
fails. -/
theorem C9_amended :
    ∀ (th : Theme) (oc : TipoOutcome),
      (oc = .notInstalled ∨ oc = .loadFail ∨ oc = .inferFail) →
      (∀ k ∈ th.keywords, k ≠ "" ∧ pyStrip k = k ∧ ',' ∉ k.data) →
      enhanceTheme oc th = th :=
  fun th oc hoc hk => enhanceTheme_fail_clean th oc hoc hk

/-- C9 witness: a failing enhancement pass leaves a well-formed keyword
list untouched. -/
theorem C9_witness :
    enhanceTheme .loadFail ⟨"T", "c", ["sky", "blue sky"], ["m"]⟩ =
      ⟨"T", "c", ["sky", "blue sky"], ["m"]⟩ :=
  C9_amended ⟨"T", "c", ["sky", "blue sky"], ["m"]⟩ .loadFail
    (Or.inr (Or.inl rfl)) (by decide)

/-- C10: the enhancement step can modify only the `keywords` field —
title, short_concept and mood always pass through unchanged — and a
theme whose short_concept is empty is skipped entirely, whatever the
enhancer outcome. -/
theorem C10_frame :
    ∀ (oc : TipoOutcome) (th : Theme),
      (enhanceTheme oc th).title = th.title ∧
      (enhanceTheme oc th).short_concept = th.short_concept ∧
      (enhanceTheme oc th).mood = th.mood ∧
      (th.short_concept = "" → enhanceTheme oc th = th) := by
  intro oc th
  obtain ⟨tt, sc, ks, md⟩ := th
  by_cases hsc : sc = ""
  · simp [enhanceTheme, hsc]
  · refine ⟨?_, ?_, ?_, fun h => absurd h hsc⟩ <;>
      · simp only [enhanceTheme, if_neg (by simpa using hsc)]
        split <;> rfl

/-- C10 witness: a theme with an empty short_concept is unchanged even
for a successful enhancer outcome. -/
theorem C10_witness :
    enhanceTheme (.output "sunset, beach") ⟨"T", "", ["k"], ["m"]⟩ =
      ⟨"T", "", ["k"], ["m"]⟩ :=
  (C10_frame (.output "sunset, beach") ⟨"T", "", ["k"], ["m"]⟩).2.2.2 rfl

end CreatorAgent
